import Mathlib

/-!
Shallow embedding of the JSON-RPC middleware engine in
`src/packages/core/src/jrpcengine.ts` (class `JsonRpcEngine`).

Modelling conventions:
* JavaScript values that can appear as results, parameters or raw thrown
  values are modelled by the small inductive `Val`.
* An optional object field is an `Option`: `none` models the field being
  absent (or holding a falsy value where the code only tests truthiness,
  e.g. `res.error`); `some v` models the field holding the truthy value `v`.
* A middleware receives the shared mutable request and response and, when
  its turn settles, has performed one state update and terminated in exactly
  one of three ways: calling `next` (with an optional return handler),
  calling `end` (with an optional error), or throwing.  This mirrors the
  promise in `_runMiddleware`, which resolves exactly once, so anything a
  middleware does after its first terminating call is unobservable.
* Invocations of middleware and of return handlers are the observable
  events of a dispatch; the dispatcher records them in a trace (`Ev`) at
  the unique call sites `middleware(req, res, next, end)` and
  `handler(cb)` of the source.
-/

namespace JRPCEngine

/-- JavaScript-like values flowing through requests/responses. -/
inductive Val where
  | vnull : Val
  | vbool (b : Bool) : Val
  | vnum (n : Int) : Val
  | vstr (s : String) : Val
  deriving DecidableEq, Repr

/-- `JsonRpcId`: a request identifier is a number or a string
(`export type JsonRpcId = number | string | void`); absence is `Option`. -/
inductive JsonRpcId where
  | num (n : Int) : JsonRpcId
  | str (s : String) : JsonRpcId
  deriving DecidableEq, Repr

/-- `JsonRpcError`: the stable serialized error shape
(`{ code, message, data?, stack? }`; the diagnostic stack is not modelled). -/
structure JsonRpcError where
  code : Int
  message : String
  data : Option Val := none
  deriving DecidableEq, Repr

/-- A value a middleware may throw, pass to `end`, or store in `res.error`:
either an already-conformant error object, or a raw non-error value. -/
inductive ErrVal where
  | errObj (e : JsonRpcError) : ErrVal
  | raw (v : Val) : ErrVal
  deriving DecidableEq, Repr

/-- Modelled from the spec: stringification of a raw value used when the
error normalizer wraps a non-error value (its source file is not under
`src/`); the spec only requires "the stringified value as message". -/
def stringifyVal : Val → String
  | .vnull => "null"
  | .vbool b => if b then "true" else "false"
  | .vnum n => toString n
  | .vstr s => s

/-- Modelled from the spec: the generic error code the normalizer attaches
to wrapped non-error values (section 4.6; the numeric constant lives in the
missing `utils.ts`, the claims never depend on its value). -/
def genericErrorCode : Int := -32603

/-- Modelled from the spec: `serializeError` from the missing `utils.ts`.
Section 4.6: already-conformant error objects pass through with
code/message/data preserved; non-error values are wrapped with a generic
code and the stringified value as message. -/
def serializeError : ErrVal → JsonRpcError
  | .errObj e => e
  | .raw v => { code := genericErrorCode, message := stringifyVal v }

/-- Modelled from the spec: construction of a `SerializableError` from the
missing `serializableError.ts` — an engine-generated conformant error object
carrying the given message. -/
def mkSerializableError (msg : String) : JsonRpcError :=
  { code := genericErrorCode, message := msg }

/-- The engine error for a non-callable return handler: the
`SerializableError` whose source message reads, with `next` in quote
characters that are dropped here, `JsonRpcEngine: next return handlers
must be functions`. -/
def handlerNotFunctionError : JsonRpcError :=
  mkSerializableError "JsonRpcEngine: next return handlers must be functions"

/-- The completion-check error `Response has no error or result for request`. -/
def noResultError : JsonRpcError :=
  mkSerializableError "Response has no error or result for request"

/-- The completion-check error `Nothing ended request`. -/
def nothingEndedError : JsonRpcError :=
  mkSerializableError "Nothing ended request"

/-- The validation error `request must be plain object`. -/
def notPlainObjectError : JsonRpcError :=
  mkSerializableError "request must be plain object"

/-- The validation error `method must be string`. -/
def methodNotStringError : JsonRpcError :=
  mkSerializableError "method must be string"

/-- The `TypeError` raised when `_runReturnHandlers` calls a collected
handler value that is not a function. -/
def handlerCallTypeError : ErrVal :=
  .raw (.vstr "handler is not a function")

/-- `JRPCRequest`: a plain-object request (`{ id?, jsonrpc?, method?, params? }`).
The `method` field is `Option Val` because validation must observe a missing
or non-string method. -/
structure JRPCRequest where
  id : Option JsonRpcId := none
  jsonrpc : Option String := none
  method : Option Val := none
  params : List Val := []
  deriving DecidableEq, Repr

/-- The raw argument `_handle` receives: `null`/`undefined`, a primitive,
an array, or a plain object (`!callerReq || Array.isArray(callerReq) ||
typeof callerReq !== "object"`). -/
inductive ReqInput where
  | nullish : ReqInput
  | prim (v : Val) : ReqInput
  | arr (vs : List Val) : ReqInput
  | obj (r : JRPCRequest) : ReqInput
  deriving DecidableEq, Repr

/-- `JRPCResponse`: the mutable response shell `{ id, jsonrpc, result?, error? }`.
`error` holds an `ErrVal` because middleware may store a raw value there
directly; the engine serializes it whenever it places an error itself. -/
structure JRPCResponse where
  id : Option JsonRpcId := none
  jsonrpc : Option String := none
  result : Option Val := none
  error : Option ErrVal := none
  deriving DecidableEq, Repr

/-- Observable events of a dispatch: invocation of the middleware at stack
index `i`, and invocation of the return handler carrying tag `t`. -/
inductive Ev where
  | mw (i : Nat) : Ev
  | rh (t : Nat) : Ev
  deriving DecidableEq, Repr

/-- A value passed as the optional argument of `next`: either a genuine
function (tagged so its invocation is observable in the trace; it may
mutate the response and either succeed or fail), or a truthy value that is
not callable. A falsy argument is modelled as passing nothing. -/
inductive RetHandler where
  | fn (tag : Nat) (f : JRPCResponse → JRPCResponse × Option ErrVal) : RetHandler
  | notFn (v : Val) : RetHandler

/-- How a middleware terminates its turn. -/
inductive MWStep where
  | callNext (h : Option RetHandler) : MWStep
  | callEnd (e : Option ErrVal) : MWStep
  | throwErr (e : ErrVal) : MWStep

/-- `JRPCMiddleware`: a middleware observes the working request and the
response, rewrites both (they are shared and mutable in the source), and
terminates with one `MWStep`. -/
abbrev JRPCMiddleware := JRPCRequest → JRPCResponse → JRPCRequest × JRPCResponse × MWStep

/-- Outcome of `_runMiddleware`: the error it resolved with, the
`isComplete` flag, the request/response as left by the middleware, and the
return-handler list (shared and appended to). -/
structure MWResult where
  error : Option ErrVal
  isComplete : Bool
  req : JRPCRequest
  res : JRPCResponse
  handlers : List RetHandler

/-- The `end` callback of `_runMiddleware`:
`const error = err || res.error; if (error) res.error = serializeError(error);
resolve([error, true])`. -/
def endCall (e : Option ErrVal) (req : JRPCRequest) (res : JRPCResponse)
    (handlers : List RetHandler) : MWResult :=
  match e with
  | some er =>
      ⟨some er, true, req, { res with error := some (.errObj (serializeError er)) }, handlers⟩
  | none =>
      match res.error with
      | some er =>
          ⟨some er, true, req, { res with error := some (.errObj (serializeError er)) }, handlers⟩
      | none => ⟨none, true, req, res, handlers⟩

/-- `_runMiddleware`: invoke one middleware and interpret its terminating
call. `next` short-circuits through `end` when `res.error` is set; a truthy
non-callable return handler triggers `end` with the engine error, and is
still pushed onto the handler list afterwards (the later
`resolve([null, false])` loses the race, as in the source). A synchronous
throw is caught and routed to `end`. -/
def runMiddleware (m : JRPCMiddleware) (req : JRPCRequest) (res : JRPCResponse)
    (handlers : List RetHandler) : MWResult :=
  let (req', res', step) := m req res
  match step with
  | .callEnd e => endCall e req' res' handlers
  | .throwErr e => endCall (some e) req' res' handlers
  | .callNext h =>
      match res'.error with
      | some er => endCall (some er) req' res' handlers
      | none =>
          match h with
          | none => ⟨none, false, req', res', handlers⟩
          | some (.fn t f) => ⟨none, false, req', res', handlers ++ [.fn t f]⟩
          | some (.notFn v) =>
              endCall (some (.errObj handlerNotFunctionError)) req' res'
                (handlers ++ [.notFn v])

/-- Outcome of `_runAllMiddleware`, with the trace of middleware
invocations. -/
structure AllResult where
  error : Option ErrVal
  isComplete : Bool
  req : JRPCRequest
  res : JRPCResponse
  handlers : List RetHandler
  trace : List Ev

/-- The loop of `_runAllMiddleware`: go down the stack, invoking each
middleware (recorded as `Ev.mw i`) until one completes the request. -/
def runAllAux : List JRPCMiddleware → Nat → JRPCRequest → JRPCResponse →
    List RetHandler → List Ev → AllResult
  | [], _, req, res, hs, tr => ⟨none, false, req, res, hs, tr⟩
  | m :: rest, i, req, res, hs, tr =>
      let r := runMiddleware m req res hs
      if r.isComplete then ⟨r.error, true, r.req, r.res, r.handlers, tr ++ [.mw i]⟩
      else runAllAux rest (i + 1) r.req r.res r.handlers (tr ++ [.mw i])

/-- `_runAllMiddleware`: run the stack, then reverse the collected return
handlers (`returnHandlers.reverse()`). -/
def runAllMiddleware (stack : List JRPCMiddleware) (req : JRPCRequest)
    (res : JRPCResponse) : AllResult :=
  let a := runAllAux stack 0 req res [] []
  { a with handlers := a.handlers.reverse }

/-- `_runReturnHandlers`: serially run the handlers; a handler that calls
back with an error rejects and aborts the rest; a non-callable collected
value raises a `TypeError` before any invocation of it happens. -/
def runReturnHandlers : List RetHandler → JRPCResponse → List Ev →
    JRPCResponse × Option ErrVal × List Ev
  | [], res, tr => (res, none, tr)
  | .fn t f :: rest, res, tr =>
      let (res', e) := f res
      match e with
      | some er => (res', some er, tr ++ [.rh t])
      | none => runReturnHandlers rest res' (tr ++ [.rh t])
  | .notFn _ :: _, res, tr => (res, some handlerCallTypeError, tr)

/-- `_checkForCompletion`: the thrown error, if any — first the
exactly-one-of check (`!("result" in res) && !("error" in res)`), then the
`isComplete` check. -/
def checkForCompletion (res : JRPCResponse) (isComplete : Bool) : Option ErrVal :=
  if res.result.isNone && res.error.isNone then some (.errObj noResultError)
  else if !isComplete then some (.errObj nothingEndedError)
  else none

/-- Outcome of `_processRequest` as observed by `_handle`: the error it
threw (if any), the final response and request, and the event trace. -/
structure ProcResult where
  thrown : Option ErrVal
  res : JRPCResponse
  req : JRPCRequest
  trace : List Ev

/-- `_processRequest`: run all middleware, throw on an incomplete
response, then run the return handlers (their failure is thrown), and
finally re-throw the middleware error, if any. When the completion check
throws, the return handlers are skipped. -/
def processRequest (stack : List JRPCMiddleware) (req : JRPCRequest)
    (res : JRPCResponse) : ProcResult :=
  let a := runAllMiddleware stack req res
  match checkForCompletion a.res a.isComplete with
  | some e => ⟨some e, a.res, a.req, a.trace⟩
  | none =>
      let (res', herr, tr') := runReturnHandlers a.handlers a.res a.trace
      match herr with
      | some e => ⟨some e, res', a.req, tr'⟩
      | none =>
          match a.error with
          | some e => ⟨some e, res', a.req, tr'⟩
          | none => ⟨none, res', a.req, tr'⟩

/-- The shallow copy `{ ...callerReq }` built by `_handle`: the working
request starts with the caller fields but is a distinct object, so
middleware mutation never reaches the caller-held one. -/
def copyReq (r : JRPCRequest) : JRPCRequest :=
  { id := r.id, jsonrpc := r.jsonrpc, method := r.method, params := r.params }

/-- The fresh response shell of `_handle`:
`{ id: req.id, jsonrpc: req.jsonrpc }`. -/
def resShell (r : JRPCRequest) : JRPCResponse :=
  { id := r.id, jsonrpc := r.jsonrpc }

/-- Whether `typeof callerReq.method === "string"`. -/
def isStrMethod (r : JRPCRequest) : Bool :=
  match r.method with
  | some (.vstr _) => true
  | _ => false

/-- A well-formed single request: a plain object whose method is a string. -/
def isWellFormed : ReqInput → Bool
  | .obj r => isStrMethod r
  | _ => false

/-- What `_handle` delivers to its callback: the error-first argument, the
response, the caller-held request after dispatch (never touched: middleware
only ever receive the copy), and the trace. -/
structure HandleOut where
  err : Option ErrVal
  res : JRPCResponse
  callerReq : ReqInput
  trace : List Ev

/-- The error finalization of `_handle` on a thrown error:
`delete res.result; if (!res.error) res.error = serializeError(error)`. -/
def finalizeError (e : ErrVal) (res : JRPCResponse) : JRPCResponse :=
  let res1 := { res with result := none }
  if res1.error.isSome then res1
  else { res1 with error := some (.errObj (serializeError e)) }

/-- `_handle`: validate the request shape (fail fast, before any
middleware, with the validation errors of the source and `jsonrpc: "2.0"`
on the error response), otherwise copy the request, build the response
shell, process, and on a thrown error delete `res.result` and ensure
`res.error` is populated (`if (!res.error) res.error = serializeError(error)`). -/
def handle1 (stack : List JRPCMiddleware) (callerReq : ReqInput) : HandleOut :=
  match callerReq with
  | .obj r =>
      if isStrMethod r then
        let req := copyReq r
        let p := processRequest stack req (resShell req)
        match p.thrown with
        | some e => ⟨some e, finalizeError e p.res, callerReq, p.trace⟩
        | none => ⟨none, p.res, callerReq, p.trace⟩
      else
        let e : ErrVal := .errObj methodNotStringError
        ⟨some e, { id := r.id, jsonrpc := some "2.0", error := some e }, callerReq, []⟩
  | other =>
      let e : ErrVal := .errObj notPlainObjectError
      ⟨some e, { id := none, jsonrpc := some "2.0", error := some e }, other, []⟩

/-- `_promiseHandle`: wraps `_handle`, resolving with the response and
discarding the error-first argument — it never rejects. A rejected promise
would be `Except.error`. -/
def promiseHandle (stack : List JRPCMiddleware) (req : ReqInput) :
    Except ErrVal JRPCResponse :=
  match handle1 stack req with
  | out => .ok out.res

/-- `Promise.all`: resolves with the ordered list when every element
resolves, rejects with the first rejection otherwise. -/
def promiseAll : List (Except ErrVal JRPCResponse) →
    Except ErrVal (List JRPCResponse)
  | [] => .ok []
  | .error e :: _ => .error e
  | .ok a :: rest => (promiseAll rest).map fun l => a :: l

/-- `_handleBatch`: map `_promiseHandle` over the batch in order and wait
for all of them. -/
def handleBatch (stack : List JRPCMiddleware) (reqs : List ReqInput) :
    Except ErrVal (List JRPCResponse) :=
  promiseAll (reqs.map (promiseHandle stack))

/-- `asMiddleware`: run the inner stack against the shared request and
response; if it completed, run the inner return handlers (their failure is
caught and routed to outer `end`) and call outer `end` with the inner
middleware error; otherwise call outer `next` forwarding one return handler
that runs the inner engine deferred handlers before signalling. -/
def asMiddleware (inner : List JRPCMiddleware) : JRPCMiddleware :=
  fun req res =>
    let a := runAllMiddleware inner req res
    if a.isComplete then
      let (res', herr, _) := runReturnHandlers a.handlers a.res []
      match herr with
      | some e => (a.req, res', .callEnd (some e))
      | none => (a.req, res', .callEnd a.error)
    else
      (a.req, a.res, .callNext (some (.fn 0 fun r =>
        let (r', e, _) := runReturnHandlers a.handlers r []
        (r', e))))

/-! ## Predicates on middleware and return handlers -/

/-- The tag of a return handler (0 for a non-callable value). -/
def handlerTag : RetHandler → Nat
  | .fn t _ => t
  | .notFn _ => 0

/-- A return handler that, when invoked, leaves the response identifier and
version tag unchanged and, when it succeeds, neither drops a present result
nor introduces an error on an error-free response. A non-callable value is
unconstrained: it is never invoked. -/
def HandlerOk : RetHandler → Prop
  | .fn _ f => ∀ r,
      ((f r).1).id = r.id ∧ ((f r).1).jsonrpc = r.jsonrpc ∧
      ((f r).2 = none →
        (r.result.isSome = true → ((f r).1).result.isSome = true) ∧
        (r.error = none → ((f r).1).error = none))
  | .notFn _ => True

/-- A return handler that never modifies the response error field. -/
def HandlerErrPres : RetHandler → Prop
  | .fn _ f => ∀ r, ((f r).1).error = r.error
  | .notFn _ => False

/-- A return handler that always succeeds (always calls back without an
error). -/
def HandlerSucc : RetHandler → Prop
  | .fn _ f => ∀ r, (f r).2 = none
  | .notFn _ => False

/-- The handler a terminating step passes to `next`, if any, satisfies `P`. -/
def StepHandlerOk (P : RetHandler → Prop) : MWStep → Prop
  | .callNext (some h) => P h
  | _ => True

/-- Every return handler the middleware ever passes to `next` satisfies
`P`. -/
def MwEmits (P : RetHandler → Prop) (m : JRPCMiddleware) : Prop :=
  ∀ req res, StepHandlerOk P (m req res).2.2

/-- A middleware that leaves the response identifier and version tag
unchanged and only registers `HandlerOk` return handlers. -/
def MwOk (m : JRPCMiddleware) : Prop :=
  ∀ req res,
    (((m req res).2.1).id = res.id ∧ ((m req res).2.1).jsonrpc = res.jsonrpc) ∧
    StepHandlerOk HandlerOk (m req res).2.2

/-- Whether a terminating step passes a truthy non-callable value as the
return handler of `next`. -/
def stepPassesNotFn : MWStep → Bool
  | .callNext (some (.notFn _)) => true
  | _ => false

/-! ## Structural lemmas: `endCall` -/

theorem endCall_isComplete (e : Option ErrVal) (req : JRPCRequest)
    (res : JRPCResponse) (hs : List RetHandler) :
    (endCall e req res hs).isComplete = true := by
  unfold endCall
  cases e with
  | some er => rfl
  | none => cases h : res.error <;> simp [h]

theorem endCall_req (e : Option ErrVal) (req : JRPCRequest)
    (res : JRPCResponse) (hs : List RetHandler) :
    (endCall e req res hs).req = req := by
  unfold endCall
  cases e with
  | some er => rfl
  | none => cases h : res.error <;> simp [h]

theorem endCall_handlers (e : Option ErrVal) (req : JRPCRequest)
    (res : JRPCResponse) (hs : List RetHandler) :
    (endCall e req res hs).handlers = hs := by
  unfold endCall
  cases e with
  | some er => rfl
  | none => cases h : res.error <;> simp [h]

theorem endCall_header (e : Option ErrVal) (req : JRPCRequest)
    (res : JRPCResponse) (hs : List RetHandler) :
    (endCall e req res hs).res.id = res.id ∧
    (endCall e req res hs).res.jsonrpc = res.jsonrpc ∧
    (endCall e req res hs).res.result = res.result := by
  unfold endCall
  cases e with
  | some er => exact ⟨rfl, rfl, rfl⟩
  | none => cases h : res.error <;> simp [h]

theorem endCall_error_some (e : Option ErrVal) (req : JRPCRequest)
    (res : JRPCResponse) (hs : List RetHandler) (er : ErrVal)
    (h : (endCall e req res hs).error = some er) :
    (endCall e req res hs).res.error = some (.errObj (serializeError er)) := by
  unfold endCall at h ⊢
  cases e with
  | some e' =>
      simp only [MWResult.error] at h
      cases h
      rfl
  | none =>
      cases hre : res.error with
      | some e' =>
          simp only [hre, MWResult.error] at h
          cases h
          simp [hre]
      | none => simp [hre] at h

theorem endCall_error_none (e : Option ErrVal) (req : JRPCRequest)
    (res : JRPCResponse) (hs : List RetHandler)
    (h : (endCall e req res hs).error = none) :
    (endCall e req res hs).res = res ∧ res.error = none := by
  unfold endCall at h ⊢
  cases e with
  | some e' => simp at h
  | none =>
      cases hre : res.error with
      | some e' => simp [hre] at h
      | none => simp [hre]

/-! ## Structural lemmas: `runMiddleware` -/

theorem runMiddleware_incomplete (m : JRPCMiddleware) (req : JRPCRequest)
    (res : JRPCResponse) (hs : List RetHandler)
    (h : (runMiddleware m req res hs).isComplete = false) :
    (runMiddleware m req res hs).error = none ∧
    (runMiddleware m req res hs).res.error = none := by
  rcases hm : m req res with ⟨req2, res2, step⟩
  simp only [runMiddleware, hm] at h ⊢
  cases step with
  | callEnd e => rw [endCall_isComplete] at h; cases h
  | throwErr e => rw [endCall_isComplete] at h; cases h
  | callNext ho =>
      cases hre : res2.error with
      | some er => simp only [hre] at h; rw [endCall_isComplete] at h; cases h
      | none =>
          cases ho with
          | none => simp [hre]
          | some hh =>
              cases hh with
              | fn t f => simp [hre]
              | notFn v =>
                  simp only [hre] at h
                  rw [endCall_isComplete] at h
                  cases h

theorem runMiddleware_error_some (m : JRPCMiddleware) (req : JRPCRequest)
    (res : JRPCResponse) (hs : List RetHandler) (e : ErrVal)
    (h : (runMiddleware m req res hs).error = some e) :
    (runMiddleware m req res hs).isComplete = true ∧
    (runMiddleware m req res hs).res.error = some (.errObj (serializeError e)) := by
  rcases hm : m req res with ⟨req2, res2, step⟩
  simp only [runMiddleware, hm] at h ⊢
  cases step with
  | callEnd e' => exact ⟨endCall_isComplete _ _ _ _, endCall_error_some _ _ _ _ _ h⟩
  | throwErr e' => exact ⟨endCall_isComplete _ _ _ _, endCall_error_some _ _ _ _ _ h⟩
  | callNext ho =>
      cases hre : res2.error with
      | some er =>
          simp only [hre] at h ⊢
          exact ⟨endCall_isComplete _ _ _ _, endCall_error_some _ _ _ _ _ h⟩
      | none =>
          cases ho with
          | none => simp [hre] at h
          | some hh =>
              cases hh with
              | fn t f => simp [hre] at h
              | notFn v =>
                  simp only [hre] at h ⊢
                  exact ⟨endCall_isComplete _ _ _ _, endCall_error_some _ _ _ _ _ h⟩

theorem runMiddleware_complete_error_none (m : JRPCMiddleware) (req : JRPCRequest)
    (res : JRPCResponse) (hs : List RetHandler)
    (hc : (runMiddleware m req res hs).isComplete = true)
    (h : (runMiddleware m req res hs).error = none) :
    (runMiddleware m req res hs).res.error = none := by
  rcases hm : m req res with ⟨req2, res2, step⟩
  simp only [runMiddleware, hm] at hc h ⊢
  cases step with
  | callEnd e' =>
      rw [(endCall_error_none _ _ _ _ h).1]
      exact (endCall_error_none _ _ _ _ h).2
  | throwErr e' =>
      rw [(endCall_error_none _ _ _ _ h).1]
      exact (endCall_error_none _ _ _ _ h).2
  | callNext ho =>
      cases hre : res2.error with
      | some er =>
          simp only [hre] at h
          have := (endCall_error_none _ _ _ _ h).2
          simp [hre] at this
      | none =>
          cases ho with
          | none => simp [hre] at hc
          | some hh =>
              cases hh with
              | fn t f => simp [hre] at hc
              | notFn v =>
                  simp only [hre] at h ⊢
                  rw [(endCall_error_none _ _ _ _ h).1]
                  exact (endCall_error_none _ _ _ _ h).2

theorem runMiddleware_header (m : JRPCMiddleware) (req : JRPCRequest)
    (res : JRPCResponse) (hs : List RetHandler)
    (hhdr : ((m req res).2.1).id = res.id ∧ ((m req res).2.1).jsonrpc = res.jsonrpc) :
    (runMiddleware m req res hs).res.id = res.id ∧
    (runMiddleware m req res hs).res.jsonrpc = res.jsonrpc := by
  rcases hm : m req res with ⟨req2, res2, step⟩
  rw [hm] at hhdr
  simp only at hhdr
  simp only [runMiddleware, hm]
  cases step with
  | callEnd e =>
      exact ⟨(endCall_header _ _ _ _).1.trans hhdr.1, (endCall_header _ _ _ _).2.1.trans hhdr.2⟩
  | throwErr e =>
      exact ⟨(endCall_header _ _ _ _).1.trans hhdr.1, (endCall_header _ _ _ _).2.1.trans hhdr.2⟩
  | callNext ho =>
      cases hre : res2.error with
      | some er =>
          exact ⟨(endCall_header _ _ _ _).1.trans hhdr.1, (endCall_header _ _ _ _).2.1.trans hhdr.2⟩
      | none =>
          cases ho with
          | none => exact ⟨hhdr.1, hhdr.2⟩
          | some hh =>
              cases hh with
              | fn t f => exact ⟨hhdr.1, hhdr.2⟩
              | notFn v =>
                  exact ⟨(endCall_header _ _ _ _).1.trans hhdr.1,
                         (endCall_header _ _ _ _).2.1.trans hhdr.2⟩

theorem runMiddleware_handlers (P : RetHandler → Prop) (m : JRPCMiddleware)
    (req : JRPCRequest) (res : JRPCResponse) (hs : List RetHandler)
    (hstep : StepHandlerOk P (m req res).2.2)
    (hhs : ∀ h ∈ hs, P h) :
    ∀ h ∈ (runMiddleware m req res hs).handlers, P h := by
  rcases hm : m req res with ⟨req2, res2, step⟩
  rw [hm] at hstep
  simp only at hstep
  simp only [runMiddleware, hm]
  cases step with
  | callEnd e => rw [endCall_handlers]; exact hhs
  | throwErr e => rw [endCall_handlers]; exact hhs
  | callNext ho =>
      cases hre : res2.error with
      | some er => rw [endCall_handlers]; exact hhs
      | none =>
          cases ho with
          | none => exact hhs
          | some hh =>
              cases hh with
              | fn t f =>
                  intro h hmem
                  simp only [List.mem_append, List.mem_singleton] at hmem
                  rcases hmem with hmem | rfl
                  · exact hhs h hmem
                  · exact hstep
              | notFn v =>
                  rw [endCall_handlers]
                  intro h hmem
                  simp only [List.mem_append, List.mem_singleton] at hmem
                  rcases hmem with hmem | rfl
                  · exact hhs h hmem
                  · exact hstep

/-! ## Structural lemmas: `runAllAux` -/

theorem runAllAux_incomplete (stack : List JRPCMiddleware) :
    ∀ (i : Nat) (req : JRPCRequest) (res : JRPCResponse) (hs : List RetHandler)
      (tr : List Ev), res.error = none →
    (runAllAux stack i req res hs tr).isComplete = false →
    (runAllAux stack i req res hs tr).error = none ∧
    (runAllAux stack i req res hs tr).res.error = none := by
  induction stack with
  | nil => intro i req res hs tr hre _; exact ⟨rfl, hre⟩
  | cons m rest ih =>
      intro i req res hs tr hre h
      simp only [runAllAux] at h ⊢
      cases hc : (runMiddleware m req res hs).isComplete with
      | true => simp [hc] at h
      | false =>
          simp only [hc, Bool.false_eq_true, if_false] at h ⊢
          exact ih _ _ _ _ _ (runMiddleware_incomplete _ _ _ _ hc).2 h

theorem runAllAux_error_some (stack : List JRPCMiddleware) :
    ∀ (i : Nat) (req : JRPCRequest) (res : JRPCResponse) (hs : List RetHandler)
      (tr : List Ev) (e : ErrVal),
    (runAllAux stack i req res hs tr).error = some e →
    (runAllAux stack i req res hs tr).isComplete = true ∧
    (runAllAux stack i req res hs tr).res.error = some (.errObj (serializeError e)) := by
  induction stack with
  | nil => intro i req res hs tr e h; cases h
  | cons m rest ih =>
      intro i req res hs tr e h
      simp only [runAllAux] at h ⊢
      cases hc : (runMiddleware m req res hs).isComplete with
      | true =>
          simp only [hc, if_true] at h ⊢
          exact ⟨by trivial, (runMiddleware_error_some _ _ _ _ _ h).2⟩
      | false =>
          simp only [hc, Bool.false_eq_true, if_false] at h ⊢
          exact ih _ _ _ _ _ _ h

theorem runAllAux_complete_error_none (stack : List JRPCMiddleware) :
    ∀ (i : Nat) (req : JRPCRequest) (res : JRPCResponse) (hs : List RetHandler)
      (tr : List Ev),
    (runAllAux stack i req res hs tr).isComplete = true →
    (runAllAux stack i req res hs tr).error = none →
    (runAllAux stack i req res hs tr).res.error = none := by
  induction stack with
  | nil => intro i req res hs tr hc _; cases hc
  | cons m rest ih =>
      intro i req res hs tr hc h
      simp only [runAllAux] at hc h ⊢
      cases hc' : (runMiddleware m req res hs).isComplete with
      | true =>
          simp only [hc', if_true] at h ⊢
          exact runMiddleware_complete_error_none _ _ _ _ hc' h
      | false =>
          simp only [hc', Bool.false_eq_true, if_false] at hc h ⊢
          exact ih _ _ _ _ _ hc h

theorem runAllAux_header (stack : List JRPCMiddleware)
    (hstack : ∀ m ∈ stack, MwOk m) :
    ∀ (i : Nat) (req : JRPCRequest) (res : JRPCResponse) (hs : List RetHandler)
      (tr : List Ev),
    (runAllAux stack i req res hs tr).res.id = res.id ∧
    (runAllAux stack i req res hs tr).res.jsonrpc = res.jsonrpc := by
  induction stack with
  | nil => intro i req res hs tr; exact ⟨rfl, rfl⟩
  | cons m rest ih =>
      intro i req res hs tr
      have hm : MwOk m := hstack m (List.mem_cons_self _ _)
      have hrest : ∀ m' ∈ rest, MwOk m' := fun m' hm' => hstack m' (List.mem_cons_of_mem _ hm')
      have hhdr := runMiddleware_header m req res hs ((hm req res).1)
      simp only [runAllAux]
      cases hc : (runMiddleware m req res hs).isComplete with
      | true => simp only [hc, if_true]; exact hhdr
      | false =>
          simp only [hc, Bool.false_eq_true, if_false]
          have := ih hrest (i + 1) (runMiddleware m req res hs).req
            (runMiddleware m req res hs).res (runMiddleware m req res hs).handlers
            (tr ++ [.mw i])
          exact ⟨this.1.trans hhdr.1, this.2.trans hhdr.2⟩

theorem runAllAux_handlers (P : RetHandler → Prop) (stack : List JRPCMiddleware)
    (hstack : ∀ m ∈ stack, MwEmits P m) :
    ∀ (i : Nat) (req : JRPCRequest) (res : JRPCResponse) (hs : List RetHandler)
      (tr : List Ev),
    (∀ h ∈ hs, P h) → ∀ h ∈ (runAllAux stack i req res hs tr).handlers, P h := by
  induction stack with
  | nil => intro i req res hs tr hhs; exact hhs
  | cons m rest ih =>
      intro i req res hs tr hhs
      have hm : MwEmits P m := hstack m (List.mem_cons_self _ _)
      have hrest : ∀ m' ∈ rest, MwEmits P m' := fun m' hm' => hstack m' (List.mem_cons_of_mem _ hm')
      have hstep := runMiddleware_handlers P m req res hs (hm req res) hhs
      simp only [runAllAux]
      cases hc : (runMiddleware m req res hs).isComplete with
      | true => simp only [hc, if_true]; exact hstep
      | false =>
          simp only [hc, Bool.false_eq_true, if_false]
          exact ih hrest _ _ _ _ _ hstep

theorem runAllAux_trace (stack : List JRPCMiddleware) :
    ∀ (i : Nat) (req : JRPCRequest) (res : JRPCResponse) (hs : List RetHandler)
      (tr : List Ev),
    ∀ e ∈ (runAllAux stack i req res hs tr).trace,
      e ∈ tr ∨ ∃ j, i ≤ j ∧ j < i + stack.length ∧ e = .mw j := by
  induction stack with
  | nil => intro i req res hs tr e he; exact Or.inl he
  | cons m rest ih =>
      intro i req res hs tr e he
      simp only [runAllAux] at he
      cases hc : (runMiddleware m req res hs).isComplete with
      | true =>
          simp only [hc, if_true] at he
          simp only [List.mem_append, List.mem_singleton] at he
          rcases he with he | rfl
          · exact Or.inl he
          · exact Or.inr ⟨i, le_refl i, by rw [List.length_cons]; omega, rfl⟩
      | false =>
          simp only [hc, Bool.false_eq_true, if_false] at he
          rcases ih (i + 1) _ _ _ _ e he with he' | ⟨j, hj1, hj2, rfl⟩
          · simp only [List.mem_append, List.mem_singleton] at he'
            rcases he' with he' | rfl
            · exact Or.inl he'
            · exact Or.inr ⟨i, le_refl i, by rw [List.length_cons]; omega, rfl⟩
          · exact Or.inr ⟨j, by omega, by rw [List.length_cons]; omega, rfl⟩

theorem runAllAux_append_complete (xs ys : List JRPCMiddleware) :
    ∀ (i : Nat) (req : JRPCRequest) (res : JRPCResponse) (hs : List RetHandler)
      (tr : List Ev),
    (runAllAux xs i req res hs tr).isComplete = true →
    runAllAux (xs ++ ys) i req res hs tr = runAllAux xs i req res hs tr := by
  induction xs with
  | nil => intro i req res hs tr hc; cases hc
  | cons m rest ih =>
      intro i req res hs tr hc
      simp only [runAllAux] at hc ⊢
      cases hc' : (runMiddleware m req res hs).isComplete with
      | true => simp only [hc', if_true]
      | false =>
          simp only [hc', Bool.false_eq_true, if_false] at hc ⊢
          exact ih _ _ _ _ _ hc

theorem runAllAux_append_incomplete (xs ys : List JRPCMiddleware) :
    ∀ (i : Nat) (req : JRPCRequest) (res : JRPCResponse) (hs : List RetHandler)
      (tr : List Ev),
    (runAllAux xs i req res hs tr).isComplete = false →
    runAllAux (xs ++ ys) i req res hs tr =
      runAllAux ys (i + xs.length) (runAllAux xs i req res hs tr).req
        (runAllAux xs i req res hs tr).res (runAllAux xs i req res hs tr).handlers
        (runAllAux xs i req res hs tr).trace := by
  induction xs with
  | nil =>
      intro i req res hs tr _
      simp only [List.nil_append, List.length_nil, Nat.add_zero]
      rfl
  | cons m rest ih =>
      intro i req res hs tr hc
      rw [List.cons_append]
      simp only [runAllAux, List.length_cons] at hc ⊢
      cases hc' : (runMiddleware m req res hs).isComplete with
      | true => simp [hc'] at hc
      | false =>
          simp only [hc', Bool.false_eq_true, if_false] at hc ⊢
          rw [ih _ _ _ _ _ hc]
          have hidx : i + 1 + rest.length = i + (rest.length + 1) := by omega
          rw [hidx]

/-! ## Structural lemmas: `runReturnHandlers` -/

theorem runReturnHandlers_header (l : List RetHandler) :
    ∀ (res : JRPCResponse) (tr : List Ev), (∀ h ∈ l, HandlerOk h) →
    (runReturnHandlers l res tr).1.id = res.id ∧
    (runReturnHandlers l res tr).1.jsonrpc = res.jsonrpc := by
  induction l with
  | nil => intro res tr _; exact ⟨rfl, rfl⟩
  | cons h rest ih =>
      intro res tr hl
      cases h with
      | fn t f =>
          have hok : HandlerOk (.fn t f) := hl _ (List.mem_cons_self _ _)
          have hrest : ∀ h' ∈ rest, HandlerOk h' := fun h' hm => hl h' (List.mem_cons_of_mem _ hm)
          simp only [runReturnHandlers]
          rcases hf : f res with ⟨res1, e1⟩
          have h1 : ((f res).1).id = res.id := (hok res).1
          have h2 : ((f res).1).jsonrpc = res.jsonrpc := (hok res).2.1
          rw [hf] at h1 h2
          cases e1 with
          | some er => simp only [hf]; exact ⟨h1, h2⟩
          | none =>
              simp only [hf]
              have := ih res1 (tr ++ [.rh t]) hrest
              exact ⟨this.1.trans h1, this.2.trans h2⟩
      | notFn v => exact ⟨rfl, rfl⟩

theorem runReturnHandlers_success (l : List RetHandler) :
    ∀ (res : JRPCResponse) (tr : List Ev), (∀ h ∈ l, HandlerOk h) →
    (runReturnHandlers l res tr).2.1 = none →
    ((res.result.isSome = true → (runReturnHandlers l res tr).1.result.isSome = true) ∧
     (res.error = none → (runReturnHandlers l res tr).1.error = none)) := by
  induction l with
  | nil => intro res tr _ _; exact ⟨fun h => h, fun h => h⟩
  | cons h rest ih =>
      intro res tr hl hsucc
      cases h with
      | fn t f =>
          have hok : HandlerOk (.fn t f) := hl _ (List.mem_cons_self _ _)
          have hrest : ∀ h' ∈ rest, HandlerOk h' := fun h' hm => hl h' (List.mem_cons_of_mem _ hm)
          simp only [runReturnHandlers] at hsucc ⊢
          rcases hf : f res with ⟨res1, e1⟩
          rw [hf] at hsucc
          cases e1 with
          | some er => simp at hsucc
          | none =>
              simp only at hsucc
              have hcond := (hok res).2.2 (by rw [hf])
              rw [hf] at hcond
              simp only [hf]
              have := ih res1 (tr ++ [.rh t]) hrest hsucc
              exact ⟨fun hr => this.1 (hcond.1 hr), fun he => this.2 (hcond.2 he)⟩
      | notFn v => simp [runReturnHandlers] at hsucc

theorem runReturnHandlers_errPres (l : List RetHandler) :
    ∀ (res : JRPCResponse) (tr : List Ev), (∀ h ∈ l, HandlerErrPres h) →
    (runReturnHandlers l res tr).1.error = res.error := by
  induction l with
  | nil => intro res tr _; rfl
  | cons h rest ih =>
      intro res tr hl
      cases h with
      | fn t f =>
          have hok : HandlerErrPres (.fn t f) := hl _ (List.mem_cons_self _ _)
          have hrest : ∀ h' ∈ rest, HandlerErrPres h' := fun h' hm => hl h' (List.mem_cons_of_mem _ hm)
          simp only [runReturnHandlers]
          rcases hf : f res with ⟨res1, e1⟩
          have h1 : ((f res).1).error = res.error := hok res
          rw [hf] at h1
          cases e1 with
          | some er => simp only [hf]; exact h1
          | none =>
              simp only [hf]
              exact (ih res1 (tr ++ [.rh t]) hrest).trans h1
      | notFn v => exact absurd (hl _ (List.mem_cons_self _ _)) (fun h => h)

theorem runReturnHandlers_succAll (l : List RetHandler) :
    ∀ (res : JRPCResponse) (tr : List Ev), (∀ h ∈ l, HandlerSucc h) →
    (runReturnHandlers l res tr).2.1 = none ∧
    (runReturnHandlers l res tr).2.2 = tr ++ l.map (fun h => Ev.rh (handlerTag h)) := by
  induction l with
  | nil => intro res tr _; exact ⟨rfl, by simp [runReturnHandlers]⟩
  | cons h rest ih =>
      intro res tr hl
      cases h with
      | fn t f =>
          have hok : HandlerSucc (.fn t f) := hl _ (List.mem_cons_self _ _)
          have hrest : ∀ h' ∈ rest, HandlerSucc h' := fun h' hm => hl h' (List.mem_cons_of_mem _ hm)
          simp only [runReturnHandlers]
          rcases hf : f res with ⟨res1, e1⟩
          have h1 : (f res).2 = none := hok res
          rw [hf] at h1
          simp only at h1
          subst h1
          simp only [hf]
          have := ih res1 (tr ++ [.rh t]) hrest
          refine ⟨this.1, ?_⟩
          rw [this.2]
          simp [handlerTag, List.append_assoc]
      | notFn v => exact absurd (hl _ (List.mem_cons_self _ _)) (fun h => h)

theorem runReturnHandlers_trace (l : List RetHandler) :
    ∀ (res : JRPCResponse) (tr : List Ev),
    ∀ e ∈ (runReturnHandlers l res tr).2.2, e ∈ tr ∨ ∃ t, e = .rh t := by
  induction l with
  | nil => intro res tr e he; exact Or.inl he
  | cons h rest ih =>
      intro res tr e he
      cases h with
      | fn t f =>
          simp only [runReturnHandlers] at he
          rcases hf : f res with ⟨res1, e1⟩
          rw [hf] at he
          cases e1 with
          | some er =>
              simp only [List.mem_append, List.mem_singleton] at he
              rcases he with he | rfl
              · exact Or.inl he
              · exact Or.inr ⟨t, rfl⟩
          | none =>
              rcases ih res1 (tr ++ [.rh t]) e he with he' | ht
              · simp only [List.mem_append, List.mem_singleton] at he'
                rcases he' with he' | rfl
                · exact Or.inl he'
                · exact Or.inr ⟨t, rfl⟩
              · exact Or.inr ht
      | notFn v => exact Or.inl he

/-! ## Structural lemmas: wrappers -/

theorem finalizeError_result (e : ErrVal) (res : JRPCResponse) :
    (finalizeError e res).result = none := by
  unfold finalizeError
  cases h : res.error <;> simp [h]

theorem finalizeError_header (e : ErrVal) (res : JRPCResponse) :
    (finalizeError e res).id = res.id ∧ (finalizeError e res).jsonrpc = res.jsonrpc := by
  unfold finalizeError
  cases h : res.error <;> simp [h]

theorem finalizeError_error_isSome (e : ErrVal) (res : JRPCResponse) :
    (finalizeError e res).error.isSome = true := by
  unfold finalizeError
  cases h : res.error <;> simp [h]

theorem finalizeError_error_of_some (e : ErrVal) (res : JRPCResponse)
    (x : ErrVal) (h : res.error = some x) :
    (finalizeError e res).error = some x := by
  unfold finalizeError
  simp [h]

theorem finalizeError_error_of_none (e : ErrVal) (res : JRPCResponse)
    (h : res.error = none) :
    (finalizeError e res).error = some (.errObj (serializeError e)) := by
  unfold finalizeError
  simp [h]

theorem runAllMiddleware_error (stack : List JRPCMiddleware) (req : JRPCRequest)
    (res : JRPCResponse) :
    (runAllMiddleware stack req res).error = (runAllAux stack 0 req res [] []).error := rfl

theorem runAllMiddleware_isComplete (stack : List JRPCMiddleware) (req : JRPCRequest)
    (res : JRPCResponse) :
    (runAllMiddleware stack req res).isComplete = (runAllAux stack 0 req res [] []).isComplete := rfl

theorem runAllMiddleware_res (stack : List JRPCMiddleware) (req : JRPCRequest)
    (res : JRPCResponse) :
    (runAllMiddleware stack req res).res = (runAllAux stack 0 req res [] []).res := rfl

theorem runAllMiddleware_trace (stack : List JRPCMiddleware) (req : JRPCRequest)
    (res : JRPCResponse) :
    (runAllMiddleware stack req res).trace = (runAllAux stack 0 req res [] []).trace := rfl

theorem runAllMiddleware_handlers (stack : List JRPCMiddleware) (req : JRPCRequest)
    (res : JRPCResponse) :
    (runAllMiddleware stack req res).handlers =
      (runAllAux stack 0 req res [] []).handlers.reverse := rfl

theorem processRequest_check_some_eq (stack : List JRPCMiddleware)
    (req : JRPCRequest) (res : JRPCResponse) (e : ErrVal)
    (h : checkForCompletion (runAllMiddleware stack req res).res
          (runAllMiddleware stack req res).isComplete = some e) :
    processRequest stack req res =
      ⟨some e, (runAllMiddleware stack req res).res, (runAllMiddleware stack req res).req,
       (runAllMiddleware stack req res).trace⟩ := by
  simp [processRequest, h]

theorem processRequest_check_none_spec (stack : List JRPCMiddleware)
    (req : JRPCRequest) (res : JRPCResponse)
    (h : checkForCompletion (runAllMiddleware stack req res).res
          (runAllMiddleware stack req res).isComplete = none) :
    (processRequest stack req res).res =
      (runReturnHandlers (runAllMiddleware stack req res).handlers
        (runAllMiddleware stack req res).res (runAllMiddleware stack req res).trace).1 ∧
    (processRequest stack req res).trace =
      (runReturnHandlers (runAllMiddleware stack req res).handlers
        (runAllMiddleware stack req res).res (runAllMiddleware stack req res).trace).2.2 ∧
    (processRequest stack req res).thrown =
      ((runReturnHandlers (runAllMiddleware stack req res).handlers
        (runAllMiddleware stack req res).res (runAllMiddleware stack req res).trace).2.1.orElse
        fun _ => (runAllMiddleware stack req res).error) := by
  simp only [processRequest, h]
  rcases hrr : runReturnHandlers (runAllMiddleware stack req res).handlers
      (runAllMiddleware stack req res).res (runAllMiddleware stack req res).trace with
    ⟨res', herr, tr'⟩
  cases herr with
  | some e' => simp [hrr, Option.orElse]
  | none =>
      cases hae : (runAllMiddleware stack req res).error <;>
        simp [hrr, hae, Option.orElse]

theorem handle1_obj_wf (stack : List JRPCMiddleware) (r : JRPCRequest)
    (hr : isStrMethod r = true) :
    (handle1 stack (.obj r)).err =
      (processRequest stack (copyReq r) (resShell (copyReq r))).thrown ∧
    (handle1 stack (.obj r)).trace =
      (processRequest stack (copyReq r) (resShell (copyReq r))).trace ∧
    (handle1 stack (.obj r)).res =
      (match (processRequest stack (copyReq r) (resShell (copyReq r))).thrown with
       | some e => finalizeError e (processRequest stack (copyReq r) (resShell (copyReq r))).res
       | none => (processRequest stack (copyReq r) (resShell (copyReq r))).res) := by
  simp only [handle1, hr, if_true]
  rcases hp : (processRequest stack (copyReq r) (resShell (copyReq r))).thrown with _ | e <;>
    simp [hp]

/-! ## Concrete requests and middleware used in witnesses and counterexamples -/

/-- A concrete well-formed request. -/
def reqA : JRPCRequest :=
  { id := some (.num 1), jsonrpc := some "2.0", method := some (.vstr "test_method") }

/-- Middleware that stores a fixed result on the response and calls `end`. -/
def constResultMw (v : Val) : JRPCMiddleware :=
  fun req res => (req, { res with result := some v }, .callEnd none)

/-- Middleware that calls `next`, registering a tagged return handler that
always succeeds and leaves the response unchanged. -/
def nextMw (t : Nat) : JRPCMiddleware :=
  fun req res => (req, res, .callNext (some (.fn t fun r => (r, none))))

/-- Middleware that calls `end` with no argument and no response fields set. -/
def endNoneMw : JRPCMiddleware :=
  fun req res => (req, res, .callEnd none)

/-- Middleware that calls `end` with the raw error value `"boom"`. -/
def endErrMw : JRPCMiddleware :=
  fun req res => (req, res, .callEnd (some (.raw (.vstr "boom"))))

/-! ## Shared helper lemmas about whole dispatches -/

/-- When `_handle` reports an error through its callback, the delivered
response always carries an error in its error field. -/
theorem handle1_err_res_error (stack : List JRPCMiddleware) (input : ReqInput)
    (h : (handle1 stack input).err.isSome = true) :
    (handle1 stack input).res.error.isSome = true := by
  cases input with
  | obj r =>
      by_cases hm : isStrMethod r = true
      · have hw := handle1_obj_wf stack r hm
        rcases hp : (processRequest stack (copyReq r) (resShell (copyReq r))).thrown with _ | e
        · rw [hw.1, hp] at h
          cases h
        · rw [hw.2.2, hp]
          exact finalizeError_error_isSome _ _
      · simp [handle1, hm]
  | nullish => simp [handle1]
  | prim v => simp [handle1]
  | arr vs => simp [handle1]

/-- `_handleBatch` resolves with exactly the per-request responses of
`_handle`, in input order. -/
theorem handleBatch_ok (stack : List JRPCMiddleware) (reqs : List ReqInput) :
    handleBatch stack reqs = .ok (reqs.map fun q => (handle1 stack q).res) := by
  induction reqs with
  | nil => rfl
  | cons q rest ih =>
      simp only [handleBatch, List.map_cons, promiseAll, promiseHandle] at ih ⊢
      rw [ih]
      rfl

/-! ## Claims -/

/-- Claim C3: for every malformed request — not a plain object, or with a
non-string method — no registered middleware is ever invoked (the trace is
empty), the engine immediately reports a validation error, and the response
carries that validation error, with the identifier copied from the input
when available and absent otherwise. -/
theorem claim3_malformed_fail_fast (stack : List JRPCMiddleware) (input : ReqInput)
    (h : isWellFormed input = false) :
    (handle1 stack input).trace = [] ∧
    (handle1 stack input).err.isSome = true ∧
    (match input with
     | .obj r => (handle1 stack input).res =
         { id := r.id, jsonrpc := some "2.0", result := none,
           error := some (.errObj methodNotStringError) }
     | _ => (handle1 stack input).res =
         { id := none, jsonrpc := some "2.0", result := none,
           error := some (.errObj notPlainObjectError) }) := by
  cases input with
  | obj r =>
      simp only [isWellFormed] at h
      simp [handle1, h]
  | nullish => simp [handle1]
  | prim v => simp [handle1]
  | arr vs => simp [handle1]

/-- Witness for C3 at a primitive input and a non-empty stack. -/
theorem claim3_witness :
    (handle1 [endErrMw] (.prim (.vnum 5))).trace = [] ∧
    (handle1 [endErrMw] (.prim (.vnum 5))).err.isSome = true ∧
    (handle1 [endErrMw] (.prim (.vnum 5))).res =
      { id := none, jsonrpc := some "2.0", result := none,
        error := some (.errObj notPlainObjectError) } :=
  claim3_malformed_fail_fast [endErrMw] (.prim (.vnum 5)) (by decide)

/-- Claim C9: the caller-held request object is never mutated by a
dispatch — middleware only ever receive the working copy built by
`{ ...callerReq }`, so after `_handle` delivers its callback the caller
still holds exactly the value it passed in. -/
theorem claim9_request_not_mutated (stack : List JRPCMiddleware) (input : ReqInput) :
    (handle1 stack input).callerReq = input := by
  cases input with
  | obj r =>
      simp only [handle1]
      by_cases hm : isStrMethod r = true
      · simp only [hm, if_true]
        split <;> rfl
      · simp [hm]
  | nullish => rfl
  | prim v => rfl
  | arr vs => rfl

/-- Claim C10: the promise-returning form of `handle` never rejects — it
resolves with exactly the response `_handle` delivers — and whenever an
error was raised during processing it is observable in the response error
field. -/
theorem claim10_promise_resolves (stack : List JRPCMiddleware) (input : ReqInput) :
    promiseHandle stack input = .ok (handle1 stack input).res ∧
    ((handle1 stack input).err.isSome = true →
      (handle1 stack input).res.error.isSome = true) :=
  ⟨rfl, handle1_err_res_error stack input⟩

/-- Witness for C10 at an input whose dispatch raises an error. -/
theorem claim10_witness :
    promiseHandle [] .nullish = .ok (handle1 [] .nullish).res ∧
    (handle1 [] .nullish).res.error.isSome = true :=
  ⟨(claim10_promise_resolves [] .nullish).1,
   (claim10_promise_resolves [] .nullish).2 (by decide)⟩

/-- Claim C6: batch dispatch resolves with a response list of the same
length, where position `i` is exactly the single dispatch of request `i`
(so items are handled independently and an item whose handling raises an
error yields an error response at its own position, leaving the others
untouched). -/
theorem claim6_batch_isolation (stack : List JRPCMiddleware) (reqs : List ReqInput) :
    handleBatch stack reqs = .ok (reqs.map fun q => (handle1 stack q).res) ∧
    (reqs.map fun q => (handle1 stack q).res).length = reqs.length ∧
    (∀ i : Nat, (reqs.map fun q => (handle1 stack q).res)[i]? =
      (reqs[i]?).map fun q => (handle1 stack q).res) ∧
    (∀ q ∈ reqs, (handle1 stack q).err.isSome = true →
      (handle1 stack q).res.error.isSome = true) := by
  refine ⟨handleBatch_ok stack reqs, List.length_map _ _, ?_, ?_⟩
  · intro i
    simp [List.getElem?_map]
  · intro q _ hq
    exact handle1_err_res_error stack q hq

/-- Witness for C6: a batch whose middle element raises, surrounding
elements well-formed. -/
theorem claim6_witness :
    handleBatch [constResultMw (.vnum 7)] [.obj reqA, .nullish, .obj reqA] =
      .ok ([.obj reqA, .nullish, .obj reqA].map fun q =>
        (handle1 [constResultMw (.vnum 7)] q).res) ∧
    (handle1 [constResultMw (.vnum 7)] .nullish).res.error.isSome = true :=
  ⟨(claim6_batch_isolation [constResultMw (.vnum 7)] [.obj reqA, .nullish, .obj reqA]).1,
   (claim6_batch_isolation [constResultMw (.vnum 7)] [.obj reqA, .nullish, .obj reqA]).2.2.2
     .nullish (by decide) (by decide)⟩

/-- Claim C5: a middleware calling `end` with no error while the response
carries neither result nor error yields a protocol-violation error
response, not a successful empty one; a stack exhausted without any `end`
likewise yields a protocol-violation error response. -/
theorem claim5_protocol_violation (stack : List JRPCMiddleware) (r : JRPCRequest)
    (hr : isStrMethod r = true) :
    (((runAllMiddleware stack (copyReq r) (resShell (copyReq r))).error = none ∧
      (runAllMiddleware stack (copyReq r) (resShell (copyReq r))).isComplete = true ∧
      (runAllMiddleware stack (copyReq r) (resShell (copyReq r))).res.result = none ∧
      (runAllMiddleware stack (copyReq r) (resShell (copyReq r))).res.error = none) →
      ((handle1 stack (.obj r)).res.error = some (.errObj noResultError) ∧
       (handle1 stack (.obj r)).res.result = none)) ∧
    ((runAllMiddleware stack (copyReq r) (resShell (copyReq r))).isComplete = false →
      (((handle1 stack (.obj r)).res.error = some (.errObj noResultError) ∨
        (handle1 stack (.obj r)).res.error = some (.errObj nothingEndedError)) ∧
       (handle1 stack (.obj r)).res.result = none)) := by
  have hw := handle1_obj_wf stack r hr
  constructor
  · rintro ⟨he, hc, hres, herr⟩
    have hchk : checkForCompletion (runAllMiddleware stack (copyReq r) (resShell (copyReq r))).res
        (runAllMiddleware stack (copyReq r) (resShell (copyReq r))).isComplete =
        some (.errObj noResultError) := by
      simp [checkForCompletion, hres, herr]
    have hpr := processRequest_check_some_eq stack (copyReq r) (resShell (copyReq r)) _ hchk
    rw [hw.2.2, hpr]
    simp only
    constructor
    · rw [finalizeError_error_of_none _ _ herr]
      rfl
    · exact finalizeError_result _ _
  · intro hc
    have hshell : (resShell (copyReq r)).error = none := rfl
    have hinc := runAllAux_incomplete stack 0 (copyReq r) (resShell (copyReq r)) [] [] hshell
      (by rw [← runAllMiddleware_isComplete]; exact hc)
    have herr : (runAllMiddleware stack (copyReq r) (resShell (copyReq r))).res.error = none := by
      rw [runAllMiddleware_res]; exact hinc.2
    cases hres : (runAllMiddleware stack (copyReq r) (resShell (copyReq r))).res.result with
    | none =>
        have hchk : checkForCompletion (runAllMiddleware stack (copyReq r) (resShell (copyReq r))).res
            (runAllMiddleware stack (copyReq r) (resShell (copyReq r))).isComplete =
            some (.errObj noResultError) := by
          simp [checkForCompletion, hres, herr]
        have hpr := processRequest_check_some_eq stack (copyReq r) (resShell (copyReq r)) _ hchk
        rw [hw.2.2, hpr]
        simp only
        exact ⟨Or.inl (by rw [finalizeError_error_of_none _ _ herr]; rfl), finalizeError_result _ _⟩
    | some v =>
        have hchk : checkForCompletion (runAllMiddleware stack (copyReq r) (resShell (copyReq r))).res
            (runAllMiddleware stack (copyReq r) (resShell (copyReq r))).isComplete =
            some (.errObj nothingEndedError) := by
          simp [checkForCompletion, hres, hc]
        have hpr := processRequest_check_some_eq stack (copyReq r) (resShell (copyReq r)) _ hchk
        rw [hw.2.2, hpr]
        simp only
        exact ⟨Or.inr (by rw [finalizeError_error_of_none _ _ herr]; rfl), finalizeError_result _ _⟩

/-- Witness for C5: both parts at concrete inputs — a one-middleware stack
calling empty `end`, and a stack exhausted by `next`. -/
theorem claim5_witness :
    ((handle1 [endNoneMw] (.obj reqA)).res.error = some (.errObj noResultError) ∧
     (handle1 [endNoneMw] (.obj reqA)).res.result = none) ∧
    (((handle1 [nextMw 7] (.obj reqA)).res.error = some (.errObj noResultError) ∨
      (handle1 [nextMw 7] (.obj reqA)).res.error = some (.errObj nothingEndedError)) ∧
     (handle1 [nextMw 7] (.obj reqA)).res.result = none) :=
  ⟨(claim5_protocol_violation [endNoneMw] reqA (by decide)).1 (by decide),
   (claim5_protocol_violation [nextMw 7] reqA (by decide)).2 (by decide)⟩

/-- Claim C7: an inner engine whose sole middleware always sets a fixed
result, exposed through `asMiddleware` as the sole middleware of an outer
engine, makes the outer dispatch behave exactly like running the inner
engine directly: same output, and the response carries the fixed result. -/
theorem claim7_nesting_equiv (v : Val) (r : JRPCRequest) (hr : isStrMethod r = true) :
    handle1 [asMiddleware [constResultMw v]] (.obj r) = handle1 [constResultMw v] (.obj r) ∧
    (handle1 [asMiddleware [constResultMw v]] (.obj r)).res.result = some v ∧
    (handle1 [asMiddleware [constResultMw v]] (.obj r)).res.error = none := by
  refine ⟨?_, ?_, ?_⟩ <;> (simp only [handle1, hr]; rfl)

/-- Witness for C7 at a concrete result value and request. -/
theorem claim7_witness :
    handle1 [asMiddleware [constResultMw (.vnum 42)]] (.obj reqA) =
      handle1 [constResultMw (.vnum 42)] (.obj reqA) ∧
    (handle1 [asMiddleware [constResultMw (.vnum 42)]] (.obj reqA)).res.result =
      some (.vnum 42) ∧
    (handle1 [asMiddleware [constResultMw (.vnum 42)]] (.obj reqA)).res.error = none :=
  claim7_nesting_equiv (.vnum 42) reqA (by decide)

/-- `checkForCompletion` passes exactly when the stack signalled completion
and the response carries a result or an error. -/
theorem checkForCompletion_none_spec (res : JRPCResponse) (b : Bool)
    (h : checkForCompletion res b = none) :
    b = true ∧ (res.result.isSome = true ∨ res.error.isSome = true) := by
  cases hr : res.result <;> cases he : res.error <;> cases b <;>
    simp_all [checkForCompletion]

/-- A middleware stack of `MwOk` middleware also leaves all the collected
return handlers `HandlerOk` — middleware are the only source of handlers. -/
theorem runAllMiddleware_handlers_ok (stack : List JRPCMiddleware)
    (hstack : ∀ m ∈ stack, MwOk m) (req : JRPCRequest) (res : JRPCResponse) :
    ∀ h ∈ (runAllMiddleware stack req res).handlers, HandlerOk h := by
  intro h hm
  rw [runAllMiddleware_handlers, List.mem_reverse] at hm
  exact runAllAux_handlers HandlerOk stack
    (fun m hm' req' res' => ((hstack m hm') req' res').2) 0 req res [] []
    (by intro h' hh'; cases hh') h hm

/-- Claim C1 (amended): for every well-formed single request and every
stack of middleware that leave the response identifier and version tag
unchanged and only register `HandlerOk` return handlers, dispatch delivers
exactly one response whose identifier and version tag equal the request
ones and which carries exactly one of a result or an error — never both,
never neither. -/
theorem claim1_amended_envelope (stack : List JRPCMiddleware)
    (hstack : ∀ m ∈ stack, MwOk m) (r : JRPCRequest) (hr : isStrMethod r = true) :
    (handle1 stack (.obj r)).res.id = r.id ∧
    (handle1 stack (.obj r)).res.jsonrpc = r.jsonrpc ∧
    (handle1 stack (.obj r)).res.result.isSome =
      !(handle1 stack (.obj r)).res.error.isSome := by
  have hw := handle1_obj_wf stack r hr
  have hhdr0 := runAllAux_header stack hstack 0 (copyReq r) (resShell (copyReq r)) [] []
  have hhdr : (runAllMiddleware stack (copyReq r) (resShell (copyReq r))).res.id = r.id ∧
      (runAllMiddleware stack (copyReq r) (resShell (copyReq r))).res.jsonrpc = r.jsonrpc := by
    rw [runAllMiddleware_res]
    exact ⟨hhdr0.1, hhdr0.2⟩
  have hhand := runAllMiddleware_handlers_ok stack hstack (copyReq r) (resShell (copyReq r))
  cases hchk : checkForCompletion (runAllMiddleware stack (copyReq r) (resShell (copyReq r))).res
      (runAllMiddleware stack (copyReq r) (resShell (copyReq r))).isComplete with
  | some e =>
      have hpr := processRequest_check_some_eq stack (copyReq r) (resShell (copyReq r)) _ hchk
      rw [hw.2.2, hpr]
      simp only
      refine ⟨(finalizeError_header _ _).1.trans hhdr.1,
              (finalizeError_header _ _).2.trans hhdr.2, ?_⟩
      rw [finalizeError_result, finalizeError_error_isSome]
      rfl
  | none =>
      have hb := checkForCompletion_none_spec _ _ hchk
      have hspec := processRequest_check_none_spec stack (copyReq r) (resShell (copyReq r)) hchk
      have hrrhdr := runReturnHandlers_header _
        (runAllMiddleware stack (copyReq r) (resShell (copyReq r))).res
        (runAllMiddleware stack (copyReq r) (resShell (copyReq r))).trace hhand
      cases hherr : (runReturnHandlers (runAllMiddleware stack (copyReq r) (resShell (copyReq r))).handlers
          (runAllMiddleware stack (copyReq r) (resShell (copyReq r))).res
          (runAllMiddleware stack (copyReq r) (resShell (copyReq r))).trace).2.1 with
      | some e2 =>
          have hth : (processRequest stack (copyReq r) (resShell (copyReq r))).thrown = some e2 := by
            rw [hspec.2.2, hherr]; rfl
          rw [hw.2.2, hth]
          simp only
          rw [hspec.1] at *
          refine ⟨(finalizeError_header _ _).1.trans (hrrhdr.1.trans hhdr.1),
                  (finalizeError_header _ _).2.trans (hrrhdr.2.trans hhdr.2), ?_⟩
          rw [finalizeError_result, finalizeError_error_isSome]
          rfl
      | none =>
          cases hae : (runAllMiddleware stack (copyReq r) (resShell (copyReq r))).error with
          | some e =>
              have hth : (processRequest stack (copyReq r) (resShell (copyReq r))).thrown = some e := by
                rw [hspec.2.2, hherr, hae]; rfl
              rw [hw.2.2, hth]
              simp only
              rw [hspec.1] at *
              refine ⟨(finalizeError_header _ _).1.trans (hrrhdr.1.trans hhdr.1),
                      (finalizeError_header _ _).2.trans (hrrhdr.2.trans hhdr.2), ?_⟩
              rw [finalizeError_result, finalizeError_error_isSome]
              rfl
          | none =>
              have hth : (processRequest stack (copyReq r) (resShell (copyReq r))).thrown = none := by
                rw [hspec.2.2, hherr, hae]; rfl
              rw [hw.2.2, hth]
              simp only
              rw [hspec.1] at *
              -- completed without error: the response at the check carries a
              -- result and no error, and succeeding `HandlerOk` handlers keep
              -- it that way
              have herrnone : (runAllMiddleware stack (copyReq r) (resShell (copyReq r))).res.error = none := by
                rw [runAllMiddleware_res]
                exact runAllAux_complete_error_none stack 0 _ _ [] []
                  (by rw [← runAllMiddleware_isComplete]; exact hb.1)
                  (by rw [← runAllMiddleware_error]; exact hae)
              have hres : (runAllMiddleware stack (copyReq r) (resShell (copyReq r))).res.result.isSome = true := by
                rcases hb.2 with h1 | h1
                · exact h1
                · rw [herrnone] at h1; cases h1
              have hsucc := runReturnHandlers_success _
                (runAllMiddleware stack (copyReq r) (resShell (copyReq r))).res
                (runAllMiddleware stack (copyReq r) (resShell (copyReq r))).trace hhand hherr
              refine ⟨hrrhdr.1.trans hhdr.1, hrrhdr.2.trans hhdr.2, ?_⟩
              rw [hsucc.1 hres, hsucc.2 herrnone]
              rfl

/-- Witness for C1 (amended) at a concrete one-middleware stack. -/
theorem claim1_witness :
    (handle1 [constResultMw (.vnum 5)] (.obj reqA)).res.id = reqA.id ∧
    (handle1 [constResultMw (.vnum 5)] (.obj reqA)).res.jsonrpc = reqA.jsonrpc ∧
    (handle1 [constResultMw (.vnum 5)] (.obj reqA)).res.result.isSome =
      !(handle1 [constResultMw (.vnum 5)] (.obj reqA)).res.error.isSome :=
  claim1_amended_envelope [constResultMw (.vnum 5)]
    (by
      intro m hm
      simp only [List.mem_singleton] at hm
      subst hm
      intro req res
      exact ⟨⟨rfl, rfl⟩, trivial⟩)
    reqA (by decide)

/-- A middleware that scribbles over the response identifier before ending
with a result — legal for a JavaScript middleware, since the response
object is shared and mutable. -/
def overwriteIdMw : JRPCMiddleware :=
  fun req res => (req, { res with id := some (.num 99), result := some (.vnum 1) }, .callEnd none)

/-- A middleware whose registered return handler adds an error to an
error-free response during the unwind while reporting success. -/
def addErrHandlerMw : JRPCMiddleware :=
  fun req res => (req, res, .callNext (some (.fn 4 fun s =>
    ({ s with error := some (.errObj { code := 6, message := "late" }) }, none))))

/-- Counterexample to C1 as stated: a middleware may overwrite the
response identifier, so the dispatched response identifier can differ from
the request identifier; and a succeeding return handler may add an error
during the unwind, after the completion check, so the dispatched response
can carry both a result and an error. -/
theorem claim1_counterexample :
    (handle1 [overwriteIdMw] (.obj reqA)).res.id ≠ reqA.id ∧
    (handle1 [addErrHandlerMw, constResultMw (.vnum 1)] (.obj reqA)).res.result.isSome
      = true ∧
    (handle1 [addErrHandlerMw, constResultMw (.vnum 1)] (.obj reqA)).res.error.isSome
      = true := by decide

/-- `checkForCompletion` does pass when the stack completed and the
response carries a result or an error. -/
theorem checkForCompletion_eq_none (res : JRPCResponse) (b : Bool)
    (hb : b = true) (h : res.result.isSome = true ∨ res.error.isSome = true) :
    checkForCompletion res b = none := by
  cases hr : res.result <;> cases he : res.error <;> cases b <;>
    simp_all [checkForCompletion]

/-- A middleware whose turn terminates with an error — `end` with an
error, a synchronous throw, or `next` while the response error is set —
resolves as a completing `end` with that error. -/
theorem runMiddleware_end_err (m : JRPCMiddleware) (req : JRPCRequest)
    (res : JRPCResponse) (hs : List RetHandler) (e : ErrVal)
    (hstep : (m req res).2.2 = .callEnd (some e) ∨ (m req res).2.2 = .throwErr e ∨
      ((∃ ho, (m req res).2.2 = .callNext ho) ∧ ((m req res).2.1).error = some e)) :
    runMiddleware m req res hs =
      ⟨some e, true, (m req res).1,
       { (m req res).2.1 with error := some (.errObj (serializeError e)) }, hs⟩ := by
  rcases hm : m req res with ⟨q2, s2, step⟩
  rw [hm] at hstep
  simp only at hstep
  simp only [runMiddleware, hm]
  rcases hstep with h | h | ⟨⟨ho, h⟩, herr⟩
  · subst h; rfl
  · subst h; rfl
  · subst h
    simp only [herr]
    rfl

/-- A middleware that passes a truthy non-callable return handler to
`next` while the response error is unset resolves as a completing `end`
with the engine non-callable-handler error, and the junk value is still
pushed onto the handler list. -/
theorem runMiddleware_notfn (m : JRPCMiddleware) (req : JRPCRequest)
    (res : JRPCResponse) (hs : List RetHandler) (v : Val)
    (hstep : (m req res).2.2 = .callNext (some (.notFn v)))
    (herr : ((m req res).2.1).error = none) :
    runMiddleware m req res hs =
      ⟨some (.errObj handlerNotFunctionError), true, (m req res).1,
       { (m req res).2.1 with error := some (.errObj handlerNotFunctionError) },
       hs ++ [.notFn v]⟩ := by
  rcases hm : m req res with ⟨q2, s2, step⟩
  rw [hm] at hstep herr
  simp only at hstep herr
  subst hstep
  simp only [runMiddleware, hm, herr]
  rfl

/-- Claim C2 (amended): when a middleware's turn terminates with an error
— `end` with an error, a synchronous throw, or `next` while the response
error is already set — no later middleware in the stack is ever invoked,
and, provided the earlier middleware only registered return handlers that
leave the response error field unchanged, the response error equals the
normalized form of that error. -/
theorem claim2_amended_error_short_circuit (pre post : List JRPCMiddleware)
    (mJ : JRPCMiddleware) (r : JRPCRequest) (hr : isStrMethod r = true) (e : ErrVal)
    (hpre : (runAllAux pre 0 (copyReq r) (resShell (copyReq r)) [] []).isComplete = false)
    (hhand : ∀ m ∈ pre, MwEmits HandlerErrPres m)
    (hstep :
      (mJ (runAllAux pre 0 (copyReq r) (resShell (copyReq r)) [] []).req
          (runAllAux pre 0 (copyReq r) (resShell (copyReq r)) [] []).res).2.2 =
        .callEnd (some e) ∨
      (mJ (runAllAux pre 0 (copyReq r) (resShell (copyReq r)) [] []).req
          (runAllAux pre 0 (copyReq r) (resShell (copyReq r)) [] []).res).2.2 =
        .throwErr e ∨
      ((∃ ho, (mJ (runAllAux pre 0 (copyReq r) (resShell (copyReq r)) [] []).req
          (runAllAux pre 0 (copyReq r) (resShell (copyReq r)) [] []).res).2.2 =
          .callNext ho) ∧
        ((mJ (runAllAux pre 0 (copyReq r) (resShell (copyReq r)) [] []).req
          (runAllAux pre 0 (copyReq r) (resShell (copyReq r)) [] []).res).2.1).error =
          some e)) :
    (handle1 (pre ++ mJ :: post) (.obj r)).res.error =
      some (.errObj (serializeError e)) ∧
    (∀ k, pre.length < k →
      Ev.mw k ∉ (handle1 (pre ++ mJ :: post) (.obj r)).trace) := by
  have hw := handle1_obj_wf (pre ++ mJ :: post) r hr
  have happ := runAllAux_append_incomplete pre (mJ :: post) 0 (copyReq r)
    (resShell (copyReq r)) [] [] hpre
  have hrm := runMiddleware_end_err mJ
    (runAllAux pre 0 (copyReq r) (resShell (copyReq r)) [] []).req
    (runAllAux pre 0 (copyReq r) (resShell (copyReq r)) [] []).res
    (runAllAux pre 0 (copyReq r) (resShell (copyReq r)) [] []).handlers e hstep
  have haux : runAllAux (pre ++ mJ :: post) 0 (copyReq r) (resShell (copyReq r)) [] [] =
      ⟨some e, true,
       (mJ (runAllAux pre 0 (copyReq r) (resShell (copyReq r)) [] []).req
          (runAllAux pre 0 (copyReq r) (resShell (copyReq r)) [] []).res).1,
       { (mJ (runAllAux pre 0 (copyReq r) (resShell (copyReq r)) [] []).req
            (runAllAux pre 0 (copyReq r) (resShell (copyReq r)) [] []).res).2.1 with
         error := some (.errObj (serializeError e)) },
       (runAllAux pre 0 (copyReq r) (resShell (copyReq r)) [] []).handlers,
       (runAllAux pre 0 (copyReq r) (resShell (copyReq r)) [] []).trace ++
         [.mw pre.length]⟩ := by
    rw [happ]
    simp only [runAllAux, hrm, if_true, Nat.zero_add]
  have hWresErr : (runAllMiddleware (pre ++ mJ :: post) (copyReq r)
      (resShell (copyReq r))).res.error = some (.errObj (serializeError e)) := by
    rw [runAllMiddleware_res, haux]
  have hWc : (runAllMiddleware (pre ++ mJ :: post) (copyReq r)
      (resShell (copyReq r))).isComplete = true := by
    rw [runAllMiddleware_isComplete, haux]
  have hWerr : (runAllMiddleware (pre ++ mJ :: post) (copyReq r)
      (resShell (copyReq r))).error = some e := by
    rw [runAllMiddleware_error, haux]
  have hWh : (runAllMiddleware (pre ++ mJ :: post) (copyReq r)
      (resShell (copyReq r))).handlers =
      (runAllAux pre 0 (copyReq r) (resShell (copyReq r)) [] []).handlers.reverse := by
    rw [runAllMiddleware_handlers, haux]
  have hWtr : (runAllMiddleware (pre ++ mJ :: post) (copyReq r)
      (resShell (copyReq r))).trace =
      (runAllAux pre 0 (copyReq r) (resShell (copyReq r)) [] []).trace ++
        [.mw pre.length] := by
    rw [runAllMiddleware_trace, haux]
  have hchk : checkForCompletion
      (runAllMiddleware (pre ++ mJ :: post) (copyReq r) (resShell (copyReq r))).res
      (runAllMiddleware (pre ++ mJ :: post) (copyReq r) (resShell (copyReq r))).isComplete =
      none :=
    checkForCompletion_eq_none _ _ hWc (Or.inr (by rw [hWresErr]; rfl))
  have hAhand : ∀ h ∈ (runAllAux pre 0 (copyReq r) (resShell (copyReq r)) [] []).handlers,
      HandlerErrPres h :=
    runAllAux_handlers HandlerErrPres pre hhand 0 _ _ [] [] (by intro h hh; cases hh)
  have hWhand : ∀ h ∈ (runAllMiddleware (pre ++ mJ :: post) (copyReq r)
      (resShell (copyReq r))).handlers, HandlerErrPres h := by
    rw [hWh]
    intro h hm
    exact hAhand h (List.mem_reverse.mp hm)
  have herrpres := runReturnHandlers_errPres _
    (runAllMiddleware (pre ++ mJ :: post) (copyReq r) (resShell (copyReq r))).res
    (runAllMiddleware (pre ++ mJ :: post) (copyReq r) (resShell (copyReq r))).trace hWhand
  have hspec := processRequest_check_none_spec (pre ++ mJ :: post) (copyReq r)
    (resShell (copyReq r)) hchk
  constructor
  · cases hherr : (runReturnHandlers
        (runAllMiddleware (pre ++ mJ :: post) (copyReq r) (resShell (copyReq r))).handlers
        (runAllMiddleware (pre ++ mJ :: post) (copyReq r) (resShell (copyReq r))).res
        (runAllMiddleware (pre ++ mJ :: post) (copyReq r) (resShell (copyReq r))).trace).2.1 with
    | some e2 =>
        have hth : (processRequest (pre ++ mJ :: post) (copyReq r)
            (resShell (copyReq r))).thrown = some e2 := by
          rw [hspec.2.2, hherr]; rfl
        rw [hw.2.2, hth]
        simp only
        rw [hspec.1] at *
        exact finalizeError_error_of_some _ _ _ (herrpres.trans hWresErr)
    | none =>
        have hth : (processRequest (pre ++ mJ :: post) (copyReq r)
            (resShell (copyReq r))).thrown = some e := by
          rw [hspec.2.2, hherr, hWerr]; rfl
        rw [hw.2.2, hth]
        simp only
        rw [hspec.1] at *
        exact finalizeError_error_of_some _ _ _ (herrpres.trans hWresErr)
  · intro k hk hmem
    rw [hw.2.1, hspec.2.1] at hmem
    rcases runReturnHandlers_trace _ _ _ _ hmem with hmem' | ⟨t, ht⟩
    · rw [hWtr] at hmem'
      rcases List.mem_append.mp hmem' with hmem'' | hmem''
      · rcases runAllAux_trace pre 0 _ _ [] [] _ hmem'' with hin | ⟨j, _, hjlt, hj⟩
        · cases hin
        · simp only [Ev.mw.injEq] at hj
          omega
      · simp only [List.mem_singleton, Ev.mw.injEq] at hmem''
        omega
    · cases ht

/-- Witness for C2 (amended): a two-middleware stack whose second member
ends with a raw error; the first registered an error-preserving handler. -/
theorem claim2_witness :
    (handle1 ([nextMw 7] ++ endErrMw :: [constResultMw (.vnum 0)]) (.obj reqA)).res.error =
      some (.errObj (serializeError (.raw (.vstr "boom")))) ∧
    Ev.mw 2 ∉ (handle1 ([nextMw 7] ++ endErrMw :: [constResultMw (.vnum 0)]) (.obj reqA)).trace := by
  have h := claim2_amended_error_short_circuit [nextMw 7] [constResultMw (.vnum 0)]
    endErrMw reqA (by decide) (.raw (.vstr "boom")) (by decide)
    (by
      intro m hm
      simp only [List.mem_singleton] at hm
      subst hm
      intro req res
      intro s
      rfl)
    (Or.inl rfl)
  exact ⟨h.1, h.2 2 (by decide)⟩

/-- A middleware whose registered return handler overwrites the response
error field during the unwind. -/
def overwriteErrHandlerMw : JRPCMiddleware :=
  fun req res => (req, res, .callNext (some (.fn 3 fun s =>
    ({ s with error := some (.errObj { code := 5, message := "overwritten" }) }, none))))

/-- Counterexample to C2 as stated: middleware 1 ends the request with the
raw error `"boom"` (first conjunct), yet the delivered response error is
not the normalized form of that error, because a return handler registered
by middleware 0 overwrote it during the unwind. -/
theorem claim2_counterexample :
    (runAllMiddleware [overwriteErrHandlerMw, endErrMw] (copyReq reqA)
      (resShell (copyReq reqA))).error = some (.raw (.vstr "boom")) ∧
    (handle1 [overwriteErrHandlerMw, endErrMw] (.obj reqA)).res.error ≠
      some (.errObj (serializeError (.raw (.vstr "boom")))) := by decide

/-- Claim C4 (amended): for every dispatch in which the stack halts with
the response carrying a result or an error, and in which all collected
return handlers succeed, the handlers are executed exactly once each,
serially, in the exact reverse of the order in which they were collected
(that is, of the execution order of the middleware that registered them),
regardless of whether the stack ended in an error. -/
theorem claim4_amended_reverse_unwind (stack : List JRPCMiddleware) (r : JRPCRequest)
    (hr : isStrMethod r = true)
    (hc : (runAllAux stack 0 (copyReq r) (resShell (copyReq r)) [] []).isComplete = true)
    (hne : (runAllAux stack 0 (copyReq r) (resShell (copyReq r)) [] []).res.result.isSome = true ∨
      (runAllAux stack 0 (copyReq r) (resShell (copyReq r)) [] []).res.error.isSome = true)
    (hsucc : ∀ h ∈ (runAllAux stack 0 (copyReq r) (resShell (copyReq r)) [] []).handlers,
      HandlerSucc h) :
    (handle1 stack (.obj r)).trace =
      (runAllAux stack 0 (copyReq r) (resShell (copyReq r)) [] []).trace ++
        ((runAllAux stack 0 (copyReq r) (resShell (copyReq r)) [] []).handlers.map
          fun h => Ev.rh (handlerTag h)).reverse := by
  have hw := handle1_obj_wf stack r hr
  have hchk : checkForCompletion
      (runAllMiddleware stack (copyReq r) (resShell (copyReq r))).res
      (runAllMiddleware stack (copyReq r) (resShell (copyReq r))).isComplete = none :=
    checkForCompletion_eq_none _ _ (by rw [runAllMiddleware_isComplete]; exact hc)
      (by rw [runAllMiddleware_res]; exact hne)
  have hWhand : ∀ h ∈ (runAllMiddleware stack (copyReq r) (resShell (copyReq r))).handlers,
      HandlerSucc h := by
    rw [runAllMiddleware_handlers]
    intro h hm
    exact hsucc h (List.mem_reverse.mp hm)
  have hrr := runReturnHandlers_succAll _
    (runAllMiddleware stack (copyReq r) (resShell (copyReq r))).res
    (runAllMiddleware stack (copyReq r) (resShell (copyReq r))).trace hWhand
  have hspec := processRequest_check_none_spec stack (copyReq r) (resShell (copyReq r)) hchk
  rw [hw.2.1, hspec.2.1, hrr.2, runAllMiddleware_trace, runAllMiddleware_handlers,
    List.map_reverse]

/-- Witness for C4 (amended): two handler-registering middleware followed
by a completing one; handlers run in reverse registration order. -/
theorem claim4_witness :
    (handle1 [nextMw 1, nextMw 2, constResultMw (.vnum 3)] (.obj reqA)).trace =
      (runAllAux [nextMw 1, nextMw 2, constResultMw (.vnum 3)] 0 (copyReq reqA)
        (resShell (copyReq reqA)) [] []).trace ++
        ((runAllAux [nextMw 1, nextMw 2, constResultMw (.vnum 3)] 0 (copyReq reqA)
          (resShell (copyReq reqA)) [] []).handlers.map
          fun h => Ev.rh (handlerTag h)).reverse := by
  apply claim4_amended_reverse_unwind
  · decide
  · decide
  · decide
  · intro h hm
    have hh : (runAllAux [nextMw 1, nextMw 2, constResultMw (.vnum 3)] 0 (copyReq reqA)
        (resShell (copyReq reqA)) [] []).handlers =
        [.fn 1 fun s => (s, none), .fn 2 fun s => (s, none)] := rfl
    rw [hh] at hm
    simp only [List.mem_cons, List.not_mem_nil, or_false] at hm
    rcases hm with rfl | rfl
    · intro s; rfl
    · intro s; rfl

/-- A middleware whose registered return handler fails during the
unwind. -/
def failHandlerMw (t : Nat) : JRPCMiddleware :=
  fun req res => (req, res, .callNext (some (.fn t fun s =>
    (s, some (.raw (.vstr "unwind-fail"))))))

/-- Counterexample to C4 as stated: first, the stack halts (a middleware
ended the request) and a return handler had been collected, yet that
handler is never executed, because the halt left the response without
result or error and the completion check fires before the unwind; second,
a failing return handler aborts the rest of the unwind, so an earlier
registered handler is executed zero times. -/
theorem claim4_counterexample :
    ((runAllAux [nextMw 7, endNoneMw] 0 (copyReq reqA) (resShell (copyReq reqA)) [] []).isComplete
       = true ∧
     (runAllAux [nextMw 7, endNoneMw] 0 (copyReq reqA) (resShell (copyReq reqA)) [] []).handlers.length
       = 1 ∧
     Ev.rh 7 ∉ (handle1 [nextMw 7, endNoneMw] (.obj reqA)).trace) ∧
    (Ev.rh 8 ∈ (handle1 [nextMw 9, failHandlerMw 8, constResultMw (.vnum 3)] (.obj reqA)).trace ∧
     Ev.rh 9 ∉ (handle1 [nextMw 9, failHandlerMw 8, constResultMw (.vnum 3)] (.obj reqA)).trace) := by
  decide

/-- Claim C8 (amended): if a middleware passes a truthy non-callable value
as the return handler of `next` while the response carries no error, the
dispatch halts at that middleware with the engine non-callable-handler
error on the response; no later middleware is invoked and no return
handler runs. -/
theorem claim8_amended_notfn_handler (pre post : List JRPCMiddleware)
    (mJ : JRPCMiddleware) (r : JRPCRequest) (hr : isStrMethod r = true) (v : Val)
    (hpre : (runAllAux pre 0 (copyReq r) (resShell (copyReq r)) [] []).isComplete = false)
    (hstep :
      (mJ (runAllAux pre 0 (copyReq r) (resShell (copyReq r)) [] []).req
          (runAllAux pre 0 (copyReq r) (resShell (copyReq r)) [] []).res).2.2 =
        .callNext (some (.notFn v)))
    (herr2 :
      ((mJ (runAllAux pre 0 (copyReq r) (resShell (copyReq r)) [] []).req
          (runAllAux pre 0 (copyReq r) (resShell (copyReq r)) [] []).res).2.1).error = none) :
    (handle1 (pre ++ mJ :: post) (.obj r)).res.error =
      some (.errObj handlerNotFunctionError) ∧
    (handle1 (pre ++ mJ :: post) (.obj r)).trace =
      (runAllAux pre 0 (copyReq r) (resShell (copyReq r)) [] []).trace ++
        [.mw pre.length] ∧
    (∀ k, pre.length < k →
      Ev.mw k ∉ (handle1 (pre ++ mJ :: post) (.obj r)).trace) := by
  have hw := handle1_obj_wf (pre ++ mJ :: post) r hr
  have happ := runAllAux_append_incomplete pre (mJ :: post) 0 (copyReq r)
    (resShell (copyReq r)) [] [] hpre
  have hrm := runMiddleware_notfn mJ
    (runAllAux pre 0 (copyReq r) (resShell (copyReq r)) [] []).req
    (runAllAux pre 0 (copyReq r) (resShell (copyReq r)) [] []).res
    (runAllAux pre 0 (copyReq r) (resShell (copyReq r)) [] []).handlers v hstep herr2
  have haux : runAllAux (pre ++ mJ :: post) 0 (copyReq r) (resShell (copyReq r)) [] [] =
      ⟨some (.errObj handlerNotFunctionError), true,
       (mJ (runAllAux pre 0 (copyReq r) (resShell (copyReq r)) [] []).req
          (runAllAux pre 0 (copyReq r) (resShell (copyReq r)) [] []).res).1,
       { (mJ (runAllAux pre 0 (copyReq r) (resShell (copyReq r)) [] []).req
            (runAllAux pre 0 (copyReq r) (resShell (copyReq r)) [] []).res).2.1 with
         error := some (.errObj handlerNotFunctionError) },
       (runAllAux pre 0 (copyReq r) (resShell (copyReq r)) [] []).handlers ++ [.notFn v],
       (runAllAux pre 0 (copyReq r) (resShell (copyReq r)) [] []).trace ++
         [.mw pre.length]⟩ := by
    rw [happ]
    simp only [runAllAux, hrm, if_true, Nat.zero_add]
  have hWresErr : (runAllMiddleware (pre ++ mJ :: post) (copyReq r)
      (resShell (copyReq r))).res.error = some (.errObj handlerNotFunctionError) := by
    rw [runAllMiddleware_res, haux]
  have hWc : (runAllMiddleware (pre ++ mJ :: post) (copyReq r)
      (resShell (copyReq r))).isComplete = true := by
    rw [runAllMiddleware_isComplete, haux]
  have hWh : (runAllMiddleware (pre ++ mJ :: post) (copyReq r)
      (resShell (copyReq r))).handlers =
      .notFn v ::
        (runAllAux pre 0 (copyReq r) (resShell (copyReq r)) [] []).handlers.reverse := by
    rw [runAllMiddleware_handlers, haux]
    simp
  have hWtr : (runAllMiddleware (pre ++ mJ :: post) (copyReq r)
      (resShell (copyReq r))).trace =
      (runAllAux pre 0 (copyReq r) (resShell (copyReq r)) [] []).trace ++
        [.mw pre.length] := by
    rw [runAllMiddleware_trace, haux]
  have hchk : checkForCompletion
      (runAllMiddleware (pre ++ mJ :: post) (copyReq r) (resShell (copyReq r))).res
      (runAllMiddleware (pre ++ mJ :: post) (copyReq r) (resShell (copyReq r))).isComplete =
      none :=
    checkForCompletion_eq_none _ _ hWc (Or.inr (by rw [hWresErr]; rfl))
  have hspec := processRequest_check_none_spec (pre ++ mJ :: post) (copyReq r)
    (resShell (copyReq r)) hchk
  have hrrjunk : runReturnHandlers
      (runAllMiddleware (pre ++ mJ :: post) (copyReq r) (resShell (copyReq r))).handlers
      (runAllMiddleware (pre ++ mJ :: post) (copyReq r) (resShell (copyReq r))).res
      (runAllMiddleware (pre ++ mJ :: post) (copyReq r) (resShell (copyReq r))).trace =
      ((runAllMiddleware (pre ++ mJ :: post) (copyReq r) (resShell (copyReq r))).res,
       some handlerCallTypeError,
       (runAllMiddleware (pre ++ mJ :: post) (copyReq r) (resShell (copyReq r))).trace) := by
    rw [hWh]
    rfl
  have hth : (processRequest (pre ++ mJ :: post) (copyReq r)
      (resShell (copyReq r))).thrown = some handlerCallTypeError := by
    rw [hspec.2.2, hrrjunk]
    rfl
  have htr : (handle1 (pre ++ mJ :: post) (.obj r)).trace =
      (runAllAux pre 0 (copyReq r) (resShell (copyReq r)) [] []).trace ++
        [.mw pre.length] := by
    rw [hw.2.1, hspec.2.1, hrrjunk]
    exact hWtr
  refine ⟨?_, htr, ?_⟩
  · rw [hw.2.2, hth]
    simp only
    rw [hspec.1, hrrjunk]
    exact finalizeError_error_of_some _ _ _ hWresErr
  · intro k hk hmem
    rw [htr] at hmem
    rcases List.mem_append.mp hmem with hmem' | hmem'
    · rcases runAllAux_trace pre 0 _ _ [] [] _ hmem' with hin | ⟨j, _, hjlt, hj⟩
      · cases hin
      · simp only [Ev.mw.injEq] at hj
        omega
    · simp only [List.mem_singleton, Ev.mw.injEq] at hmem'
      omega

/-- A middleware that passes the non-callable value `42` as a return
handler to `next`. -/
def junkNextMw : JRPCMiddleware :=
  fun req res => (req, res, .callNext (some (.notFn (.vnum 42))))

/-- Witness for C8 (amended) at a concrete three-middleware stack. -/
theorem claim8_witness :
    (handle1 ([nextMw 7] ++ junkNextMw :: [endNoneMw]) (.obj reqA)).res.error =
      some (.errObj handlerNotFunctionError) ∧
    (handle1 ([nextMw 7] ++ junkNextMw :: [endNoneMw]) (.obj reqA)).trace =
      (runAllAux [nextMw 7] 0 (copyReq reqA) (resShell (copyReq reqA)) [] []).trace ++
        [.mw 1] :=
  ⟨(claim8_amended_notfn_handler [nextMw 7] [endNoneMw] junkNextMw reqA (by decide)
      (.vnum 42) (by decide) rfl rfl).1,
   (claim8_amended_notfn_handler [nextMw 7] [endNoneMw] junkNextMw reqA (by decide)
      (.vnum 42) (by decide) rfl rfl).2.1⟩

/-- A middleware that sets a raw error on the response and then passes a
non-callable return handler to `next`. -/
def errThenJunkMw : JRPCMiddleware :=
  fun req res =>
    (req, { res with error := some (.raw (.vstr "boom")) },
     .callNext (some (.notFn (.vnum 42))))

/-- Counterexample to C8 as stated: the middleware passes a non-callable
return handler to `next` (first conjunct), yet the dispatch ends with the
middleware's own prior error on the response, not with the engine-level
non-callable-handler error — the error short-circuit in `next` fires
before the handler is examined. -/
theorem claim8_counterexample :
    stepPassesNotFn ((errThenJunkMw (copyReq reqA) (resShell (copyReq reqA))).2.2) = true ∧
    (handle1 [errThenJunkMw] (.obj reqA)).res.error =
      some (.errObj (serializeError (.raw (.vstr "boom")))) ∧
    (handle1 [errThenJunkMw] (.obj reqA)).res.error ≠
      some (.errObj handlerNotFunctionError) := by decide

end JRPCEngine
